import Mathlib

/-!
Verification of the multi-agent orchestration subsystem of
`mcp-client-for-ollama` (`src/mcp_client_for_ollama/agents/`): the message
broker (`communication.py`), the task orchestrator (`orchestrator.py`) and
the two-tier agent memory (`memory.py`), shallowly embedded in Lean.

Modelling conventions:
* Python dicts (which preserve insertion order) become association lists
  `List (String × α)`; assignment to an existing key updates in place,
  assignment to a fresh key appends, mirroring CPython semantics.
* `asyncio.Queue` becomes a `List` used FIFO: `put` appends at the tail,
  `get` takes the head.
* Timestamps (`datetime.now()`, `fromisoformat`) are abstracted to `Nat`
  values supplied by the caller; `uuid4` ids are `String`s supplied by the
  caller.  JSON-object payloads become `List (String × String)`.
* Fallible Python code (raised exceptions) becomes `Except`/`Option`
  results; subscriber callbacks are opaque (their exceptions are swallowed
  by the broker and they cannot mutate broker state in this model), so the
  subscriber table only keeps a count per agent.
-/

namespace MCO

/-- Association-list lookup mirroring Python `d[k]` / `k in d`. -/
def alookup (k : String) : List (String × α) → Option α
  | [] => none
  | (k', v) :: rest => if k' = k then some v else alookup k rest

/-- Association-list store mirroring Python `d[k] = v`: updates in place if
`k` is present, else appends (CPython insertion-order semantics). -/
def astore (k : String) (v : α) : List (String × α) → List (String × α)
  | [] => [(k, v)]
  | (k', v') :: rest =>
      if k' = k then (k', v) :: rest else (k', v') :: astore k v rest

/-- Association-list delete mirroring Python `del d[k]`. -/
def adel (k : String) : List (String × α) → List (String × α)
  | [] => []
  | (k', v') :: rest => if k' = k then rest else (k', v') :: adel k rest

/-- Python slice `xs[-n:]` for a nonnegative `n` (note `xs[-0:] = xs`). -/
def pySliceLast (n : Nat) (xs : List α) : List α :=
  if n = 0 then xs else xs.drop (xs.length - n)

/-- `MessageType` enum of `communication.py`. -/
inductive MessageType where
  | TASK_REQUEST
  | TASK_RESPONSE
  | INFORMATION_SHARE
  | COLLABORATION_REQUEST
  | STATUS_UPDATE
  | ERROR_REPORT
deriving DecidableEq, Repr

/-- `AgentMessage` dataclass of `communication.py`; `content` is a
JSON-object payload modelled as an association list. -/
structure AgentMessage where
  id : String
  sender : String
  recipient : String
  message_type : MessageType
  content : List (String × String)
  timestamp : Nat
  thread_id : Option String
  priority : Int
deriving DecidableEq, Repr

/-- `MessageBroker` state (`communication.py`).  `subscribers` keeps, per
agent, only the number of registered callbacks: callbacks are opaque
async functions whose exceptions `send_message` swallows, and they cannot
mutate broker state in this model. -/
structure MessageBroker where
  message_queues : List (String × List AgentMessage)
  subscribers : List (String × Nat)
  message_history : List AgentMessage
  max_history : Nat
deriving DecidableEq, Repr

namespace MessageBroker

/-- `MessageBroker.__init__`. -/
def init : MessageBroker :=
  { message_queues := [], subscribers := [], message_history := [],
    max_history := 1000 }

/-- `MessageBroker.register_agent`. -/
def register_agent (br : MessageBroker) (agent_name : String) : MessageBroker :=
  match alookup agent_name br.message_queues with
  | some _ => br
  | none =>
      { br with
        message_queues := astore agent_name [] br.message_queues,
        subscribers := astore agent_name 0 br.subscribers }

/-- `MessageBroker.unregister_agent`. -/
def unregister_agent (br : MessageBroker) (agent_name : String) : MessageBroker :=
  match alookup agent_name br.message_queues with
  | none => br
  | some _ =>
      { br with
        message_queues := adel agent_name br.message_queues,
        subscribers := adel agent_name br.subscribers }

/-- `MessageBroker.send_message`: returns `false` without mutation for an
unregistered recipient; otherwise enqueues, appends to the bounded history
(dropping the oldest entry when the bound is exceeded) and notifies
subscribers (whose errors are swallowed; no broker-state effect). -/
def send_message (br : MessageBroker) (message : AgentMessage) :
    Bool × MessageBroker :=
  match alookup message.recipient br.message_queues with
  | none => (false, br)
  | some q =>
      let queues := astore message.recipient (q ++ [message]) br.message_queues
      let hist := br.message_history ++ [message]
      let hist := if br.max_history < hist.length then hist.drop 1 else hist
      (true, { br with message_queues := queues, message_history := hist })

/-- `MessageBroker.receive_message`: `none` for an unregistered agent, and
`none` on an empty queue (the timeout elapsing); otherwise dequeues the
head of the agent's FIFO queue. -/
def receive_message (br : MessageBroker) (agent_name : String) :
    Option AgentMessage × MessageBroker :=
  match alookup agent_name br.message_queues with
  | none => (none, br)
  | some [] => (none, br)
  | some (m :: rest) =>
      (some m, { br with message_queues := astore agent_name rest br.message_queues })

/-- `MessageBroker.subscribe` (the callback itself is opaque; only the
count is tracked). -/
def subscribe (br : MessageBroker) (agent_name : String) : MessageBroker :=
  let n := (alookup agent_name br.subscribers).getD 0
  { br with subscribers := astore agent_name (n + 1) br.subscribers }

/-- `MessageBroker.get_pending_messages`. -/
def get_pending_messages (br : MessageBroker) (agent_name : String) : Nat :=
  match alookup agent_name br.message_queues with
  | none => 0
  | some q => q.length

/-- The filter of `get_conversation_history`: a message exchanged between
`agent1` and `agent2` in either direction. -/
def betweenAgents (agent1 agent2 : String) (m : AgentMessage) : Bool :=
  (m.sender == agent1 && m.recipient == agent2) ||
  (m.sender == agent2 && m.recipient == agent1)

/-- `MessageBroker.get_conversation_history`: filters the history by
participants and returns the Python slice `messages[-limit:]`. -/
def get_conversation_history (br : MessageBroker) (agent1 agent2 : String)
    (limit : Nat := 50) : List AgentMessage :=
  pySliceLast limit (br.message_history.filter (betweenAgents agent1 agent2))

/-- `MessageBroker.get_thread_messages`. -/
def get_thread_messages (br : MessageBroker) (thread_id : String) :
    List AgentMessage :=
  br.message_history.filter (fun m => m.thread_id == some thread_id)

/-- Fold of `send_message` over a list of messages (the broker state after
a batch of sends; the success booleans are discarded). -/
def sendAll (br : MessageBroker) : List AgentMessage → MessageBroker
  | [] => br
  | m :: rest => sendAll (send_message br m).2 rest

/-- Collect the results of `k` successive `receive_message` calls for one
agent, stopping at the first `none`. -/
def receiveN (br : MessageBroker) (agent_name : String) : Nat → List AgentMessage
  | 0 => []
  | k + 1 =>
      match receive_message br agent_name with
      | (none, _) => []
      | (some m, br') => m :: receiveN br' agent_name k

end MessageBroker

theorem alookup_astore_self (k : String) (v : α) (l : List (String × α)) :
    alookup k (astore k v l) = some v := by
  induction l with
  | nil => simp [alookup, astore]
  | cons hd tl ih =>
      obtain ⟨k', v'⟩ := hd
      by_cases h : k' = k <;> simp [alookup, astore, h, ih]

theorem alookup_astore_ne (k k' : String) (hne : k' ≠ k) (v : α)
    (l : List (String × α)) : alookup k' (astore k v l) = alookup k' l := by
  induction l with
  | nil => simp [alookup, astore, Ne.symm hne]
  | cons hd tl ih =>
      obtain ⟨k₀, v₀⟩ := hd
      by_cases h : k₀ = k
      · subst h
        simp [alookup, astore, Ne.symm hne]
      · simp only [astore, if_neg h, alookup, ih]

namespace MessageBroker

theorem send_queue_other (br : MessageBroker) (m : AgentMessage) (name : String)
    (hne : name ≠ m.recipient) :
    alookup name (br.send_message m).2.message_queues =
      alookup name br.message_queues := by
  unfold send_message
  cases h : alookup m.recipient br.message_queues with
  | none => rfl
  | some q => simpa using alookup_astore_ne m.recipient name hne (q ++ [m]) _

theorem send_queue_self (br : MessageBroker) (m : AgentMessage)
    (q : List AgentMessage) (h : alookup m.recipient br.message_queues = some q) :
    alookup m.recipient (br.send_message m).2.message_queues = some (q ++ [m]) := by
  unfold send_message
  rw [h]
  simpa using alookup_astore_self m.recipient (q ++ [m]) br.message_queues

theorem sendAll_queue (msgs : List AgentMessage) (br : MessageBroker)
    (name : String) (q : List AgentMessage)
    (h : alookup name br.message_queues = some q) :
    alookup name (br.sendAll msgs).message_queues =
      some (q ++ msgs.filter (fun m => m.recipient == name)) := by
  induction msgs generalizing br q with
  | nil => simpa [sendAll] using h
  | cons m rest ih =>
      by_cases hr : m.recipient = name
      · subst hr
        have h' := send_queue_self br m q h
        have := ih (br.send_message m).2 (q ++ [m]) h'
        simpa [sendAll, List.filter] using this
      · have h' : alookup name (br.send_message m).2.message_queues = some q := by
          rw [send_queue_other br m name (fun he => hr he.symm)]; exact h
        have := ih (br.send_message m).2 q h'
        have hne : (m.recipient == name) = false := by
          simp [hr]
        simpa [sendAll, List.filter, hne] using this

theorem receiveN_take (k : Nat) (br : MessageBroker) (name : String)
    (l : List AgentMessage) (h : alookup name br.message_queues = some l) :
    br.receiveN name k = l.take k := by
  induction k generalizing br l with
  | zero => simp [receiveN]
  | succ k ih =>
      cases l with
      | nil =>
          have hrec : br.receive_message name = (none, br) := by
            unfold receive_message; rw [h]
          unfold receiveN
          rw [hrec]
          simp
      | cons m rest =>
          have hrec : br.receive_message name =
              (some m, { br with
                message_queues := astore name rest br.message_queues }) := by
            unfold receive_message; rw [h]
          unfold receiveN
          rw [hrec]
          show m :: MessageBroker.receiveN _ name k = (m :: rest).take (k + 1)
          rw [List.take_succ_cons]
          exact congrArg (m :: ·)
            (ih { br with message_queues := astore name rest br.message_queues }
              rest (alookup_astore_self name rest br.message_queues))

end MessageBroker

/-- C1: per-recipient FIFO delivery.  Starting from a broker state where
`name` is registered with an empty mailbox, after any batch of
`send_message` calls (to arbitrary recipients), successive
`receive_message name` calls return exactly the messages sent to `name`,
in send order — no skips, reorders or drops. -/
theorem C1_per_recipient_fifo (br : MessageBroker) (name : String)
    (msgs : List AgentMessage) (k : Nat)
    (h : alookup name br.message_queues = some []) :
    (br.sendAll msgs).receiveN name k =
      (msgs.filter (fun m => m.recipient == name)).take k := by
  have hq := MessageBroker.sendAll_queue msgs br name [] h
  simpa using MessageBroker.receiveN_take k _ name _ hq

/-- Concrete messages used in witnesses and counterexamples. -/
def msgA : AgentMessage :=
  { id := "m-a", sender := "a", recipient := "b",
    message_type := MessageType.INFORMATION_SHARE, content := [],
    timestamp := 0, thread_id := some "t", priority := 1 }

def msgB : AgentMessage :=
  { id := "m-b", sender := "a", recipient := "b",
    message_type := MessageType.TASK_REQUEST, content := [],
    timestamp := 1, thread_id := some "t", priority := 1 }

def msgC : AgentMessage :=
  { id := "m-c", sender := "b", recipient := "a",
    message_type := MessageType.TASK_RESPONSE, content := [],
    timestamp := 2, thread_id := none, priority := 1 }

/-- A broker with `"a"` and `"b"` registered. -/
def twoAgentBroker : MessageBroker :=
  (MessageBroker.init.register_agent "a").register_agent "b"

theorem C1_per_recipient_fifo_witness :
    alookup "b" twoAgentBroker.message_queues = some [] ∧
    (twoAgentBroker.sendAll [msgA, msgC, msgB]).receiveN "b" 3 = [msgA, msgB] :=
  ⟨by decide, by
    have := C1_per_recipient_fifo twoAgentBroker "b" [msgA, msgC, msgB] 3
      (by decide)
    rw [this]; decide⟩

/-- The broker history invariant of the spec: the bounded history log has
capacity 1000 and never exceeds it. -/
def historyInv (br : MessageBroker) : Prop :=
  br.max_history = 1000 ∧ br.message_history.length ≤ 1000

namespace MessageBroker

theorem register_agent_history (br : MessageBroker) (name : String) :
    (br.register_agent name).message_history = br.message_history ∧
    (br.register_agent name).max_history = br.max_history := by
  unfold register_agent
  cases alookup name br.message_queues <;> exact ⟨rfl, rfl⟩

theorem unregister_agent_history (br : MessageBroker) (name : String) :
    (br.unregister_agent name).message_history = br.message_history ∧
    (br.unregister_agent name).max_history = br.max_history := by
  unfold unregister_agent
  cases alookup name br.message_queues <;> exact ⟨rfl, rfl⟩

theorem receive_message_history (br : MessageBroker) (name : String) :
    (br.receive_message name).2.message_history = br.message_history ∧
    (br.receive_message name).2.max_history = br.max_history := by
  unfold receive_message
  rcases alookup name br.message_queues with _ | (_ | _) <;> exact ⟨rfl, rfl⟩

theorem send_message_max (br : MessageBroker) (m : AgentMessage) :
    (br.send_message m).2.max_history = br.max_history := by
  unfold send_message
  cases alookup m.recipient br.message_queues <;> rfl

theorem send_message_history_le (br : MessageBroker) (m : AgentMessage)
    (h : br.message_history.length ≤ br.max_history) :
    (br.send_message m).2.message_history.length ≤ br.max_history := by
  unfold send_message
  cases hq : alookup m.recipient br.message_queues with
  | none => exact h
  | some q =>
      show (if br.max_history < (br.message_history ++ [m]).length
            then (br.message_history ++ [m]).drop 1
            else br.message_history ++ [m]).length ≤ br.max_history
      split
      · simp only [List.length_drop, List.length_append, List.length_singleton]
        omega
      · next hn =>
          simp only [List.length_append, List.length_singleton] at hn ⊢
          omega

theorem send_message_drop_oldest (br : MessageBroker) (m : AgentMessage)
    (hfull : br.message_history.length = br.max_history)
    (hpos : 0 < br.max_history)
    (hok : (br.send_message m).1 = true) :
    (br.send_message m).2.message_history =
      br.message_history.drop 1 ++ [m] := by
  cases hq : alookup m.recipient br.message_queues with
  | none =>
      have hf : (br.send_message m).1 = false := by
        unfold send_message; rw [hq]
      rw [hok] at hf
      cases hf
  | some q =>
      unfold send_message
      rw [hq]
      show (if br.max_history < (br.message_history ++ [m]).length
            then (br.message_history ++ [m]).drop 1
            else br.message_history ++ [m]) = _
      rw [if_pos (by simp only [List.length_append, List.length_singleton]; omega)]
      rw [List.drop_append_of_le_length (by omega)]

end MessageBroker

/-- C9: the broker's message history never exceeds 1000 entries — the
invariant (`max_history = 1000` and at most 1000 stored messages) holds
for the initial broker and is preserved by every broker operation; and
when a successful send finds the history full, the oldest entry is
dropped and all newer entries (plus the new message) are kept in order. -/
theorem C9_history_bound :
    historyInv MessageBroker.init ∧
    (∀ (br : MessageBroker) (name : String) (m : AgentMessage),
      historyInv br →
      historyInv (br.register_agent name) ∧
      historyInv (br.unregister_agent name) ∧
      historyInv (br.subscribe name) ∧
      historyInv (br.send_message m).2 ∧
      historyInv (br.receive_message name).2) ∧
    (∀ (br : MessageBroker) (m : AgentMessage),
      historyInv br →
      br.message_history.length = 1000 →
      (br.send_message m).1 = true →
      (br.send_message m).2.message_history =
        br.message_history.drop 1 ++ [m]) := by
  refine ⟨⟨rfl, by simp [MessageBroker.init]⟩, ?_, ?_⟩
  · intro br name m h
    obtain ⟨hmax, hlen⟩ := h
    refine ⟨⟨?_, ?_⟩, ⟨?_, ?_⟩, ⟨?_, ?_⟩, ⟨?_, ?_⟩, ⟨?_, ?_⟩⟩
    · rw [(MessageBroker.register_agent_history br name).2]; exact hmax
    · rw [(MessageBroker.register_agent_history br name).1]; exact hlen
    · rw [(MessageBroker.unregister_agent_history br name).2]; exact hmax
    · rw [(MessageBroker.unregister_agent_history br name).1]; exact hlen
    · exact hmax
    · exact hlen
    · rw [MessageBroker.send_message_max br m]; exact hmax
    · rw [← hmax]; exact MessageBroker.send_message_history_le br m (hmax ▸ hlen)
    · rw [(MessageBroker.receive_message_history br name).2]; exact hmax
    · rw [(MessageBroker.receive_message_history br name).1]; exact hlen
  · intro br m h hfull hok
    exact MessageBroker.send_message_drop_oldest br m (h.1 ▸ hfull)
      (h.1 ▸ Nat.succ_pos 999) hok

theorem C9_history_bound_witness :
    historyInv twoAgentBroker ∧ historyInv (twoAgentBroker.send_message msgA).2 :=
  ⟨⟨rfl, by decide⟩,
    ((C9_history_bound.2.1 twoAgentBroker "a" msgA ⟨rfl, by decide⟩).2.2.2.1)⟩

/-- The broker state after sending `msgA` then `msgB` (both `"a" → "b"`,
timestamps 0 and 1, thread `"t"`) through a broker with `"a"` and `"b"`
registered. -/
def c5Broker : MessageBroker := twoAgentBroker.sendAll [msgA, msgB]

/-- C5 counterexample: the history accessors return matching messages in
chronological (oldest-first) order, not most-recent-first.  With two
matching messages of strictly increasing timestamps, most-recent-first
would be `[msgB, msgA]`, but both accessors return `[msgA, msgB]`. -/
theorem C5_counterexample :
    MessageBroker.get_conversation_history c5Broker "a" "b" 2 = [msgA, msgB] ∧
    msgA.timestamp < msgB.timestamp ∧
    ([msgA, msgB] : List AgentMessage) ≠ [msgB, msgA] ∧
    MessageBroker.get_thread_messages c5Broker "t" = [msgA, msgB] := by
  refine ⟨by decide, by decide, by decide, by decide⟩

/-- C5 amended: for `limit ≥ 1`, `get_conversation_history` returns the
most recent at-most-`limit` messages exchanged between the two agents in
chronological (oldest-first) order — the reverse of taking `limit` from
the most-recent-first ordering — and `get_thread_messages` returns all
messages with the given thread id in chronological order, untruncated.
(For `limit = 0` the Python slice `messages[-0:]` returns the whole
filtered list.) -/
theorem C5_history_chronological (br : MessageBroker) (a1 a2 tid : String)
    (n : Nat) (h : 1 ≤ n) :
    MessageBroker.get_conversation_history br a1 a2 n =
      (((br.message_history.filter
          (MessageBroker.betweenAgents a1 a2)).reverse).take n).reverse ∧
    MessageBroker.get_thread_messages br tid =
      br.message_history.filter (fun m => m.thread_id == some tid) := by
  constructor
  · unfold MessageBroker.get_conversation_history pySliceLast
    rw [if_neg (by omega)]
    exact List.rtake_eq_reverse_take_reverse _ _
  · rfl

theorem C5_history_chronological_witness :
    (1 ≤ 2) ∧
    MessageBroker.get_conversation_history c5Broker "a" "b" 2 =
      (((c5Broker.message_history.filter
          (MessageBroker.betweenAgents "a" "b")).reverse).take 2).reverse :=
  ⟨by decide, (C5_history_chronological c5Broker "a" "b" "t" 2 (by decide)).1⟩

/-- `MemoryEntry` dataclass of `memory.py`; `metadata` is a JSON-object
payload modelled as an association list, the timestamp is abstract. -/
structure MemoryEntry where
  id : String
  content : String
  timestamp : Nat
  importance : Int
  tags : List String
  metadata : List (String × String)
deriving DecidableEq, Repr

/-- Raw JSON-object form of a serialized `MemoryEntry` (the dictionaries
handled by `MemoryEntry.to_dict` / `MemoryEntry.from_dict`).  `none`
models a missing key; for `timestamp` it also models a string that
`datetime.fromisoformat` rejects. -/
structure EntryDict where
  id : Option String
  content : Option String
  timestamp : Option Nat
  importance : Option Int
  tags : Option (List String)
  metadata : Option (List (String × String))
deriving DecidableEq, Repr

/-- `MemoryEntry.to_dict`. -/
def MemoryEntry.to_dict (e : MemoryEntry) : EntryDict :=
  { id := some e.id, content := some e.content,
    timestamp := some e.timestamp, importance := some e.importance,
    tags := some e.tags, metadata := some e.metadata }

/-- `MemoryEntry.from_dict`: `data["id"]`, `data["content"]` and
`datetime.fromisoformat(data["timestamp"])` raise on a missing/bad value
(modelled as `none`); `importance`/`tags`/`metadata` fall back to
defaults via `.get`. -/
def MemoryEntry.from_dict (d : EntryDict) : Option MemoryEntry :=
  match d.id, d.content, d.timestamp with
  | some i, some c, some t =>
      some { id := i, content := c, timestamp := t,
             importance := d.importance.getD 1, tags := d.tags.getD [],
             metadata := d.metadata.getD [] }
  | _, _, _ => none

/-- The Python list comprehension `[MemoryEntry.from_dict(m) for m in l]`:
all-or-nothing, raising (here `none`) at the first bad element. -/
def parseEntries : List EntryDict → Option (List MemoryEntry)
  | [] => some []
  | d :: rest =>
      match MemoryEntry.from_dict d with
      | none => none
      | some e =>
          match parseEntries rest with
          | none => none
          | some es => some (e :: es)

/-- Stable insertion step: `x` (arriving later) is placed after every
already-placed element whose key is `≥` its own. -/
def insertStable (ge : α → α → Bool) (x : α) : List α → List α
  | [] => [x]
  | y :: ys => if ge y x then y :: insertStable ge x ys else x :: y :: ys

/-- CPython's stable `list.sort(key=..., reverse=True)`: descending by
key, ties kept in original order.  `ge a b` must say "key of `a` ≥ key of
`b`". -/
def pySortDesc (ge : α → α → Bool) (l : List α) : List α :=
  l.foldl (fun acc x => insertStable ge x acc) []

/-- The sort key of `_consolidate_memories`: `(importance, timestamp)`
lexicographically, compared for `reverse=True` order. -/
def memKeyGE (a b : MemoryEntry) : Bool :=
  (b.importance < a.importance) ||
  (a.importance == b.importance && b.timestamp ≤ a.timestamp)

/-- `AgentMemory` state (`memory.py`); `working_memory` is a JSON-object
scratchpad modelled as an association list.  The per-instance asyncio
lock serializes the composite operations and is not part of the
sequential state. -/
structure AgentMemory where
  agent_name : String
  max_size : Nat
  short_term : List MemoryEntry
  long_term : List MemoryEntry
  working_memory : List (String × String)
deriving DecidableEq, Repr

namespace AgentMemory

/-- `AgentMemory.__init__` (default `max_size=1000`). -/
def init (agent_name : String) (max_size : Nat := 1000) : AgentMemory :=
  { agent_name := agent_name, max_size := max_size,
    short_term := [], long_term := [], working_memory := [] }

/-- `AgentMemory._consolidate_memories`: copy importance ≥ 3 short-term
entries into long-term, truncate short-term to its most recent 20
entries, and if long-term now exceeds `max_size`, stably re-sort it by
`(importance, timestamp)` descending and truncate. -/
def consolidate_memories (st : AgentMemory) : AgentMemory :=
  let important := st.short_term.filter (fun m => decide (3 ≤ m.importance))
  let long_term := st.long_term ++ important
  let short_term := pySliceLast 20 st.short_term
  let long_term :=
    if st.max_size < long_term.length then
      (pySortDesc memKeyGE long_term).take st.max_size
    else long_term
  { st with short_term := short_term, long_term := long_term }

/-- One `add_memory` call: the entry's fresh uuid and `datetime.now()`
timestamp are supplied by the caller as part of the call description. -/
structure AddCall where
  id : String
  content : String
  timestamp : Nat
  importance : Int
  tags : List String
  metadata : List (String × String)
deriving DecidableEq, Repr

/-- The `MemoryEntry` an `add_memory` call constructs. -/
def AddCall.entry (c : AddCall) : MemoryEntry :=
  { id := c.id, content := c.content, timestamp := c.timestamp,
    importance := c.importance, tags := c.tags, metadata := c.metadata }

/-- `AgentMemory.add_memory`, also reporting whether this call triggered
a consolidation (`len(short_term) > 50` after the append).  The Python
function returns the new entry's id, which here is `c.id`. -/
def add_memory_c (st : AgentMemory) (c : AddCall) : AgentMemory × Bool :=
  let st1 := { st with short_term := st.short_term ++ [c.entry] }
  if 50 < st1.short_term.length then (st1.consolidate_memories, true)
  else (st1, false)

/-- `AgentMemory.add_memory` (state effect only). -/
def add_memory (st : AgentMemory) (c : AddCall) : AgentMemory :=
  (st.add_memory_c c).1

/-- Fold `add_memory` over a list of calls, counting how many of the
calls triggered a consolidation. -/
def addManyCount (st : AgentMemory) : List AddCall → AgentMemory × Nat
  | [] => (st, 0)
  | c :: rest =>
      let r := st.add_memory_c c
      let rec' := r.1.addManyCount rest
      (rec'.1, (if r.2 then 1 else 0) + rec'.2)

/-- `AgentMemory.update_working_memory`. -/
def update_working_memory (st : AgentMemory) (key value : String) : AgentMemory :=
  { st with working_memory := astore key value st.working_memory }

end AgentMemory

/-- The memory persistence document written by `save_to_file` and read by
`load_from_file` (a parsed JSON object; `none` at the call site of
`load_from_file` models a missing file or a JSON parse error). -/
structure MemoryFileDoc where
  agent_name : String
  short_term : List EntryDict
  long_term : List EntryDict
  working_memory : List (String × String)
  timestamp : Nat
deriving DecidableEq, Repr

namespace AgentMemory

/-- `AgentMemory.save_to_file`: the document serialized to the file
(`datetime.now()` is supplied as `now`; directory creation and the write
itself are I/O and out of the state model). -/
def save_to_file (st : AgentMemory) (now : Nat) : MemoryFileDoc :=
  { agent_name := st.agent_name,
    short_term := st.short_term.map MemoryEntry.to_dict,
    long_term := st.long_term.map MemoryEntry.to_dict,
    working_memory := st.working_memory,
    timestamp := now }

/-- `AgentMemory.load_from_file`.  `parsed = none` models a missing file
or `json.load` failure.  Mirrors the Python control flow: `short_term` is
assigned before `long_term` is parsed, so a failure while parsing
`long_term` leaves an already-replaced `short_term` behind (the `except`
then returns `False`). -/
def load_from_file (st : AgentMemory) (parsed : Option MemoryFileDoc) :
    Bool × AgentMemory :=
  match parsed with
  | none => (false, st)
  | some data =>
      match parseEntries data.short_term with
      | none => (false, st)
      | some sts =>
          match parseEntries data.long_term with
          | none => (false, { st with short_term := sts })
          | some lts =>
              (true,
                { st with
                  short_term := sts
                  long_term := lts
                  working_memory := data.working_memory })

end AgentMemory

theorem from_dict_to_dict (e : MemoryEntry) :
    MemoryEntry.from_dict e.to_dict = some e := rfl

theorem parseEntries_map_to_dict (l : List MemoryEntry) :
    parseEntries (l.map MemoryEntry.to_dict) = some l := by
  induction l with
  | nil => rfl
  | cons e rest ih => simp [parseEntries, from_dict_to_dict, ih]

/-- C8: `save_to_file` followed by `load_from_file` on any other instance
(in particular a fresh one) reproduces the saved instance's short-term,
long-term and working-memory contents exactly.  (All model states are
serializable: payloads are modelled as JSON-object association lists.) -/
theorem C8_save_load_round_trip (st fresh : AgentMemory) (now : Nat) :
    (fresh.load_from_file (some (st.save_to_file now))).1 = true ∧
    (fresh.load_from_file (some (st.save_to_file now))).2.short_term =
      st.short_term ∧
    (fresh.load_from_file (some (st.save_to_file now))).2.long_term =
      st.long_term ∧
    (fresh.load_from_file (some (st.save_to_file now))).2.working_memory =
      st.working_memory := by
  unfold AgentMemory.load_from_file AgentMemory.save_to_file
  simp [parseEntries_map_to_dict]

/-- A concrete memory entry used in counterexamples and witnesses. -/
def memEntryA : MemoryEntry :=
  { id := "e1", content := "hello", timestamp := 0, importance := 2,
    tags := [], metadata := [] }

/-- A populated memory state. -/
def c6Mem : AgentMemory :=
  { agent_name := "a", max_size := 1000, short_term := [memEntryA],
    long_term := [memEntryA], working_memory := [("k", "v")] }

/-- An entry dictionary missing every key: `MemoryEntry.from_dict`
raises on it (here: `none`). -/
def badEntryDict : EntryDict :=
  { id := none, content := none, timestamp := none, importance := none,
    tags := none, metadata := none }

/-- A persistence document whose `short_term` list parses (it is empty)
but whose `long_term` list contains an unparseable entry. -/
def c6Doc : MemoryFileDoc :=
  { agent_name := "a", short_term := [], long_term := [badEntryDict],
    working_memory := [], timestamp := 0 }

/-- C6 counterexample: loading a file that fails to parse into valid
memory entries can still mutate the instance.  `c6Doc`'s `long_term`
fails entry parsing, so `load_from_file` returns `false` — but
`short_term` has already been replaced by the file's (empty) short-term
list, so the state is not "exactly as it was before". -/
theorem C6_counterexample :
    (c6Mem.load_from_file (some c6Doc)).1 = false ∧
    (c6Mem.load_from_file (some c6Doc)).2.short_term ≠ c6Mem.short_term := by
  refine ⟨by decide, by decide⟩

/-- C6 amended: `load_from_file` returns `false` with the instance fully
untouched when the file is missing / fails to parse as JSON, or when the
document's `short_term` entries fail to parse; but when `short_term`
parses and a `long_term` entry then fails to parse, it returns `false`
with `long_term` and `working_memory` untouched while `short_term` has
already been replaced by the file's parsed short-term entries. -/
theorem C6_load_failure_states (st : AgentMemory)
    (parsed : Option MemoryFileDoc) :
    (parsed = none → st.load_from_file parsed = (false, st)) ∧
    (∀ data, parsed = some data → parseEntries data.short_term = none →
      st.load_from_file parsed = (false, st)) ∧
    (∀ data sts, parsed = some data →
      parseEntries data.short_term = some sts →
      parseEntries data.long_term = none →
      st.load_from_file parsed = (false, { st with short_term := sts })) := by
  refine ⟨?_, ?_, ?_⟩
  · intro h; subst h; rfl
  · intro data h hst; subst h
    simp [AgentMemory.load_from_file, hst]
  · intro data sts h hst hlt; subst h
    simp [AgentMemory.load_from_file, hst, hlt]

theorem C6_load_failure_states_witness :
    c6Mem.load_from_file (some c6Doc) =
      (false, { c6Mem with short_term := [] }) :=
  (C6_load_failure_states c6Mem (some c6Doc)).2.2 c6Doc [] rfl rfl rfl

namespace AgentMemory

theorem addManyCount_append (l1 l2 : List AddCall) (st : AgentMemory) :
    st.addManyCount (l1 ++ l2) =
      (((st.addManyCount l1).1.addManyCount l2).1,
       (st.addManyCount l1).2 + ((st.addManyCount l1).1.addManyCount l2).2) := by
  induction l1 generalizing st with
  | nil => simp [addManyCount]
  | cons c rest ih =>
      simp only [List.cons_append, addManyCount, List.append_eq]
      rw [ih]
      simp [Nat.add_assoc]

theorem addManyCount_small (l : List AddCall) (st : AgentMemory)
    (hlong : st.long_term = [])
    (hlen : st.short_term.length + l.length ≤ 50) :
    st.addManyCount l =
      ({ st with short_term := st.short_term ++ l.map AddCall.entry }, 0) := by
  induction l generalizing st with
  | nil => simp [addManyCount]
  | cons c rest ih =>
      have hle : ¬ 50 < (st.short_term ++ [c.entry]).length := by
        simp only [List.length_append, List.length_singleton]
        simp at hlen
        omega
      have hstep : st.add_memory_c c =
          ({ st with short_term := st.short_term ++ [c.entry] }, false) := by
        unfold add_memory_c
        rw [if_neg hle]
      simp only [addManyCount, hstep]
      rw [ih { st with short_term := st.short_term ++ [c.entry] } hlong
        (by simp only [List.length_append, List.length_singleton]
            simp at hlen
            omega)]
      simp [List.append_assoc]

end AgentMemory

/-- C3: from an empty `AgentMemory`, any 51 `add_memory` calls (each
importance in 1..5) trigger exactly one consolidation, on the 51st call
(the first 50 calls trigger none); afterwards `short_term` is exactly
the 20 most recently added entries, `long_term` is exactly the
importance ≥ 3 entries among all 51 (copied, in order), and every
short-term entry of importance ≥ 3 also appears in `long_term`. -/
theorem C3_consolidation_on_51st (name : String)
    (calls : List AgentMemory.AddCall)
    (hlen : calls.length = 51)
    (himp : ∀ c ∈ calls, 1 ≤ c.importance ∧ c.importance ≤ 5) :
    ((AgentMemory.init name).addManyCount calls).2 = 1 ∧
    ((AgentMemory.init name).addManyCount (calls.take 50)).2 = 0 ∧
    ((AgentMemory.init name).addManyCount calls).1.short_term =
      (calls.map AgentMemory.AddCall.entry).drop 31 ∧
    ((AgentMemory.init name).addManyCount calls).1.short_term.length = 20 ∧
    ((AgentMemory.init name).addManyCount calls).1.long_term =
      (calls.map AgentMemory.AddCall.entry).filter
        (fun e => decide (3 ≤ e.importance)) ∧
    (∀ e ∈ ((AgentMemory.init name).addManyCount calls).1.short_term,
      3 ≤ e.importance →
      e ∈ ((AgentMemory.init name).addManyCount calls).1.long_term) := by
  have hne : calls ≠ [] := by
    intro h; rw [h] at hlen; simp at hlen
  obtain ⟨l50, c, hc⟩ : ∃ l50 c, calls = l50 ++ [c] :=
    ⟨calls.dropLast, calls.getLast hne, (List.dropLast_append_getLast hne).symm⟩
  subst hc
  have h50 : l50.length = 50 := by
    simp only [List.length_append, List.length_singleton] at hlen; omega
  have hsmall :
      (AgentMemory.init name).addManyCount l50 =
        ({ AgentMemory.init name with
            short_term := l50.map AgentMemory.AddCall.entry }, 0) := by
    have := AgentMemory.addManyCount_small l50 (AgentMemory.init name) rfl
      (by simp [AgentMemory.init, h50])
    simpa [AgentMemory.init] using this
  have hmap : (l50 ++ [c]).map AgentMemory.AddCall.entry
      = l50.map AgentMemory.AddCall.entry ++ [c.entry] := by simp
  have hlen51 :
      (l50.map AgentMemory.AddCall.entry ++ [c.entry]).length = 51 := by
    simp [h50]
  have hstep :
      ({ AgentMemory.init name with
          short_term := l50.map AgentMemory.AddCall.entry } :
            AgentMemory).addManyCount [c] =
        ({ AgentMemory.init name with
            short_term :=
              (l50.map AgentMemory.AddCall.entry ++ [c.entry]).drop 31
            long_term :=
              (l50.map AgentMemory.AddCall.entry ++ [c.entry]).filter
                (fun e => decide (3 ≤ e.importance)) }, 1) := by
    have hcond : 50 < (l50.map AgentMemory.AddCall.entry ++ [c.entry]).length := by
      rw [hlen51]; omega
    have hnotrim :
        ¬ (1000 <
          ((l50.map AgentMemory.AddCall.entry ++ [c.entry]).filter
              (fun m => decide (3 ≤ m.importance))).length) := by
      have hle := List.length_filter_le
        (fun m => decide (3 ≤ m.importance))
        (l50.map AgentMemory.AddCall.entry ++ [c.entry])
      omega
    simp only [AgentMemory.addManyCount, AgentMemory.add_memory_c,
      AgentMemory.consolidate_memories, pySliceLast, AgentMemory.init]
    rw [if_pos hcond]
    simp only [List.nil_append]
    rw [if_neg hnotrim]
    simp [hlen51]
  constructor
  · rw [AgentMemory.addManyCount_append, hsmall, hstep]
    rfl
  constructor
  · rw [show (l50 ++ [c]).take 50 = l50 by rw [← h50]; exact List.take_left l50 [c]]
    rw [hsmall]
  refine ⟨?_, ?_, ?_, ?_⟩
  · rw [AgentMemory.addManyCount_append, hsmall, hstep, hmap]
  · rw [AgentMemory.addManyCount_append, hsmall, hstep]
    show (List.drop 31 _).length = 20
    rw [List.length_drop, hlen51]
  · rw [AgentMemory.addManyCount_append, hsmall, hstep, hmap]
  · intro e he h3
    rw [AgentMemory.addManyCount_append, hsmall, hstep] at he ⊢
    have hmem : e ∈ l50.map AgentMemory.AddCall.entry ++ [c.entry] :=
      List.mem_of_mem_drop he
    exact List.mem_filter.2 ⟨hmem, by simpa using h3⟩

/-- 51 concrete `add_memory` calls with importances cycling through
1..5. -/
def c3Calls : List AgentMemory.AddCall :=
  (List.range 51).map (fun i =>
    { id := "m", content := "memo", timestamp := i,
      importance := Int.ofNat (i % 5) + 1, tags := [], metadata := [] })

theorem C3_consolidation_on_51st_witness :
    c3Calls.length = 51 ∧
    ((AgentMemory.init "w").addManyCount c3Calls).2 = 1 ∧
    ((AgentMemory.init "w").addManyCount c3Calls).1.short_term.length = 20 :=
  ⟨by decide,
   (C3_consolidation_on_51st "w" c3Calls (by decide) (by decide)).1,
   (C3_consolidation_on_51st "w" c3Calls (by decide) (by decide)).2.2.2.1⟩

/-- Characters of a Python string lowered by `.lower()` (ASCII model). -/
def lowerChars (s : String) : List Char := s.toList.map Char.toLower

/-- Prefix test on character lists. -/
def isPrefixChars : List Char → List Char → Bool
  | [], _ => true
  | _ :: _, [] => false
  | a :: as, b :: bs => a == b && isPrefixChars as bs

/-- Python's substring operator `sub in s` on character lists. -/
def isInfixChars (sub : List Char) : List Char → Bool
  | [] => isPrefixChars sub []
  | c :: rest => isPrefixChars sub (c :: rest) || isInfixChars sub rest

/-- Python truthiness of an optional string: `None` and `""` are falsy. -/
def pyFalsy : Option String → Bool
  | none => true
  | some s => s == ""

/-- CPython `max(items, key=lambda x: x[1])`: iterates left to right and
replaces the current best only on a strictly greater key, so the first
maximal element wins. -/
def pyMaxByVal : List (String × Int) → Option (String × Int)
  | [] => none
  | x :: rest => some (rest.foldl (fun best y => if best.2 < y.2 then y else best) x)

/-- `TaskStatus` enum of `orchestrator.py`. -/
inductive TaskStatus where
  | PENDING
  | ASSIGNED
  | IN_PROGRESS
  | COMPLETED
  | FAILED
  | DELEGATED
deriving DecidableEq, Repr

/-- `Task` dataclass of `orchestrator.py`; `result` is modelled as the
string produced by the execution contract. -/
structure Task where
  id : String
  description : String
  assigned_to : Option String
  status : TaskStatus
  priority : Int
  dependencies : List String
  result : Option String
  error : Option String
  created_at : Nat
  started_at : Option Nat
  completed_at : Option Nat
  parent_task_id : Option String
  subtasks : List String
deriving DecidableEq, Repr

/-- `AgentOrchestrator` state (`orchestrator.py`).  `agents` maps each
registered agent's name to `type(agent).__name__`, the only part of a
`SubAgent` object the orchestrator's selection logic reads; its
`execute_task` coroutine is the injected execution contract, passed
separately to `execute_task` below.  The rich console is output-only and
excluded. -/
structure AgentOrchestrator where
  agents : List (String × String)
  tasks : List (String × Task)
  agent_capabilities : List (String × List String)
  active_workflows : List (String × List String)
  message_broker : MessageBroker
deriving DecidableEq, Repr

namespace AgentOrchestrator

/-- `AgentOrchestrator.__init__` (with a fresh broker). -/
def init : AgentOrchestrator :=
  { agents := [], tasks := [], agent_capabilities := [],
    active_workflows := [], message_broker := MessageBroker.init }

/-- `AgentOrchestrator.register_agent`. -/
def register_agent (orch : AgentOrchestrator) (name type_name : String)
    (capabilities : List String) : AgentOrchestrator :=
  { orch with
    agents := astore name type_name orch.agents
    agent_capabilities := astore name capabilities orch.agent_capabilities
    message_broker := orch.message_broker.register_agent name }

/-- The score the selection loop computes for one agent: +10 per
capability whose lowered text occurs in the lowered description, then +5
for each matching keyword/type-name affinity check, accumulated exactly
as the Python statements do. -/
def scoreLoop (task_lower : List Char) (capabilities : List String)
    (agent_type_lower : List Char) : Int :=
  let score := capabilities.foldl
    (fun acc cap => if isInfixChars (lowerChars cap) task_lower then acc + 10 else acc) 0
  let score :=
    if isInfixChars "research".toList task_lower &&
       isInfixChars "research".toList agent_type_lower then score + 5 else score
  let score :=
    if isInfixChars "code".toList task_lower &&
       isInfixChars "coder".toList agent_type_lower then score + 5 else score
  let score :=
    if isInfixChars "test".toList task_lower &&
       isInfixChars "tester".toList agent_type_lower then score + 5 else score
  let score :=
    if isInfixChars "write".toList task_lower &&
       isInfixChars "writer".toList agent_type_lower then score + 5 else score
  let score :=
    if isInfixChars "review".toList task_lower &&
       isInfixChars "review".toList agent_type_lower then score + 5 else score
  score

/-- `AgentOrchestrator.select_agent_for_task`.  The loop iterates
`agent_capabilities` in insertion (registration) order and reads
`self.agents[agent_name]`; in states reachable through the API both
dicts hold the same keys, so the `KeyError` case (`getD ""` here) cannot
occur.  `max` keeps the first maximal score; if the best score is 0 the
first registered agent is returned, and `none` only with no agents. -/
def select_agent_for_task (orch : AgentOrchestrator)
    (task_description : String) : Option String :=
  let task_lower := lowerChars task_description
  let scores : List (String × Int) := orch.agent_capabilities.map (fun p =>
    (p.1, scoreLoop task_lower p.2
      (lowerChars ((alookup p.1 orch.agents).getD ""))))
  match pyMaxByVal scores with
  | some best =>
      if 0 < best.2 then some best.1 else (orch.agents.head?).map Prod.fst
  | none => (orch.agents.head?).map Prod.fst

/-- `AgentOrchestrator.create_task`; the fresh uuid and `datetime.now()`
are supplied by the caller. -/
def create_task (orch : AgentOrchestrator) (task_id description : String)
    (priority : Int) (dependencies : List String)
    (parent_task_id : Option String) (now : Nat) : AgentOrchestrator :=
  let task : Task :=
    { id := task_id, description := description, assigned_to := none,
      status := TaskStatus.PENDING, priority := priority,
      dependencies := dependencies, result := none, error := none,
      created_at := now, started_at := none, completed_at := none,
      parent_task_id := parent_task_id, subtasks := [] }
  { orch with tasks := astore task_id task orch.tasks }

/-- `AgentOrchestrator.assign_task`: auto-selects when `agent_name` is
falsy, fails without mutation when no (registered) agent is found,
otherwise records the assignment and fire-and-forgets a task-request
message through the broker (`msg_id`/`now` are the message's generated
uuid and timestamp). -/
def assign_task (orch : AgentOrchestrator) (task_id : String)
    (agent_name : Option String) (msg_id : String) (now : Nat) :
    Bool × AgentOrchestrator :=
  match alookup task_id orch.tasks with
  | none => (false, orch)
  | some task =>
      match (if pyFalsy agent_name then
               orch.select_agent_for_task task.description
             else agent_name) with
      | none => (false, orch)
      | some n =>
          if n == "" || (alookup n orch.agents).isNone then (false, orch)
          else
            let task :=
              { task with
                assigned_to := some n
                status := TaskStatus.ASSIGNED }
            let message : AgentMessage :=
              { id := msg_id, sender := "orchestrator", recipient := n,
                message_type := MessageType.TASK_REQUEST,
                content := [("task_id", task_id),
                            ("description", task.description),
                            ("priority", toString task.priority)],
                timestamp := now, thread_id := none, priority := 1 }
            let orch' :=
              { orch with
                tasks := astore task_id task orch.tasks
                message_broker :=
                  (orch.message_broker.send_message message).2 }
            (true, orch')

/-- `AgentOrchestrator.execute_task`.  `contract` is the injected
execution contract (`agent.execute_task`), keyed by the assigned agent's
name; `Except.error` models a raised exception, caught at this boundary
(the Lean function is total: no exception propagates).  The Python loop
returns at the first unmet present dependency after setting PENDING —
state-equivalent to the `any` test here.  The transient IN_PROGRESS
store before the contract returns is folded into the final store, whose
fields are identical. -/
def execute_task (contract : String → String → Except String String)
    (orch : AgentOrchestrator) (task_id : String)
    (msg_id : String) (msg_now now1 now2 : Nat) :
    (Bool × Option String) × AgentOrchestrator :=
  match alookup task_id orch.tasks with
  | none => ((false, none), orch)
  | some task =>
      if task.dependencies.any (fun dep_id =>
          match alookup dep_id orch.tasks with
          | some dep_task => decide (dep_task.status ≠ TaskStatus.COMPLETED)
          | none => false) then
        let pending := { task with status := TaskStatus.PENDING }
        ((false, none), { orch with tasks := astore task_id pending orch.tasks })
      else
        let orch1 :=
          if pyFalsy task.assigned_to then
            (orch.assign_task task_id none msg_id msg_now).2
          else orch
        let task1 := (alookup task_id orch1.tasks).getD task
        if pyFalsy task1.assigned_to ||
            (alookup (task1.assigned_to.getD "") orch1.agents).isNone then
          let failed :=
            { task1 with
              status := TaskStatus.FAILED
              error := some "No suitable agent available" }
          ((false, none),
            { orch1 with tasks := astore task_id failed orch1.tasks })
        else
          let agent_name := task1.assigned_to.getD ""
          let task2 :=
            { task1 with
              status := TaskStatus.IN_PROGRESS
              started_at := some now1 }
          match contract agent_name task2.description with
          | Except.ok result =>
              let done :=
                { task2 with
                  status := TaskStatus.COMPLETED
                  completed_at := some now2
                  result := some result }
              ((true, some result),
                { orch1 with tasks := astore task_id done orch1.tasks })
          | Except.error e =>
              let failed :=
                { task2 with
                  status := TaskStatus.FAILED
                  completed_at := some now2
                  error := some e }
              ((false, none),
                { orch1 with tasks := astore task_id failed orch1.tasks })

end AgentOrchestrator

/-- C2: if any dependency id present in the task store is not COMPLETED,
`execute_task` resets the task's status to PENDING and returns
`(false, none)`.  The equality holds for every `contract`, so the
assigned actor's execution contract is never invoked, and the stored
task differs from the original only in `status` — in particular
`assigned_to` is untouched. -/
theorem C2_unmet_dependency_resets_to_pending
    (orch : AgentOrchestrator) (task_id : String) (task : Task)
    (dep : String) (dep_task : Task)
    (contract : String → String → Except String String)
    (msg_id : String) (msg_now now1 now2 : Nat)
    (hlook : alookup task_id orch.tasks = some task)
    (hdep : dep ∈ task.dependencies)
    (hdeplook : alookup dep orch.tasks = some dep_task)
    (hstat : dep_task.status ≠ TaskStatus.COMPLETED) :
    AgentOrchestrator.execute_task contract orch task_id msg_id msg_now now1 now2 =
      ((false, none),
        { orch with
          tasks := astore task_id
            { task with status := TaskStatus.PENDING } orch.tasks }) ∧
    ({ task with status := TaskStatus.PENDING }).assigned_to = task.assigned_to := by
  have hany : task.dependencies.any (fun dep_id =>
      match alookup dep_id orch.tasks with
      | some dep_task => decide (dep_task.status ≠ TaskStatus.COMPLETED)
      | none => false) = true := by
    rw [List.any_eq_true]
    refine ⟨dep, hdep, ?_⟩
    rw [hdeplook]
    simpa using hstat
  refine ⟨?_, rfl⟩
  simp only [AgentOrchestrator.execute_task, hlook, hany, if_true]

/-- When the task exists, every present dependency is COMPLETED and the
task is assigned to a registered agent, `execute_task` invokes the
contract with the task description and stores COMPLETED/result or
FAILED/error accordingly. -/
theorem execute_task_runs_contract
    (orch : AgentOrchestrator) (task_id : String) (task : Task)
    (a ty : String)
    (contract : String → String → Except String String)
    (msg_id : String) (msg_now now1 now2 : Nat)
    (hlook : alookup task_id orch.tasks = some task)
    (hdeps : ∀ dep ∈ task.dependencies, ∀ dt,
      alookup dep orch.tasks = some dt → dt.status = TaskStatus.COMPLETED)
    (hassigned : task.assigned_to = some a)
    (hane : a ≠ "")
    (hagent : alookup a orch.agents = some ty) :
    AgentOrchestrator.execute_task contract orch task_id msg_id msg_now now1 now2 =
      (match contract a task.description with
       | Except.ok r =>
           ((true, some r),
             { orch with
               tasks := astore task_id
                 { task with
                   status := TaskStatus.COMPLETED
                   started_at := some now1
                   completed_at := some now2
                   result := some r } orch.tasks })
       | Except.error e =>
           ((false, none),
             { orch with
               tasks := astore task_id
                 { task with
                   status := TaskStatus.FAILED
                   started_at := some now1
                   completed_at := some now2
                   error := some e } orch.tasks })) := by
  have hany : task.dependencies.any (fun dep_id =>
      match alookup dep_id orch.tasks with
      | some dep_task => decide (dep_task.status ≠ TaskStatus.COMPLETED)
      | none => false) = false := by
    rw [List.any_eq_false]
    intro dep hmem
    cases hd : alookup dep orch.tasks with
    | none => simp
    | some dt => simp [hdeps dep hmem dt hd]
  cases hc : contract a task.description with
  | ok r =>
      simp only [AgentOrchestrator.execute_task, hlook]
      rw [hany]
      simp [hlook, hassigned, pyFalsy, hane, hagent, hc]
  | error e =>
      simp only [AgentOrchestrator.execute_task, hlook]
      rw [hany]
      simp [hlook, hassigned, pyFalsy, hane, hagent, hc]

/-- C4: with satisfiable dependencies and a valid assignee, a raising
contract makes `execute_task` store FAILED with the exception text in
`task.error` and `completed_at` set, and return `(false, none)`.  The
embedded `execute_task` is a total function — the exception is absorbed
at this boundary and never propagates. -/
theorem C4_contract_failure_captured
    (orch : AgentOrchestrator) (task_id : String) (task : Task)
    (a ty e : String)
    (contract : String → String → Except String String)
    (msg_id : String) (msg_now now1 now2 : Nat)
    (hlook : alookup task_id orch.tasks = some task)
    (hdeps : ∀ dep ∈ task.dependencies, ∀ dt,
      alookup dep orch.tasks = some dt → dt.status = TaskStatus.COMPLETED)
    (hassigned : task.assigned_to = some a)
    (hane : a ≠ "")
    (hagent : alookup a orch.agents = some ty)
    (hcontract : contract a task.description = Except.error e) :
    AgentOrchestrator.execute_task contract orch task_id msg_id msg_now now1 now2 =
      ((false, none),
        { orch with
          tasks := astore task_id
            { task with
              status := TaskStatus.FAILED
              started_at := some now1
              completed_at := some now2
              error := some e } orch.tasks }) := by
  rw [execute_task_runs_contract orch task_id task a ty contract
    msg_id msg_now now1 now2 hlook hdeps hassigned hane hagent, hcontract]

/-- C10: a dependency id absent from the task store is skipped by the
dependency check; when every present dependency is COMPLETED and the
task has a valid assignee, execution proceeds and a succeeding contract
yields `(true, result)` with the task stored COMPLETED. -/
theorem C10_missing_dependency_skipped
    (orch : AgentOrchestrator) (task_id : String) (task : Task)
    (a ty r ghost : String)
    (contract : String → String → Except String String)
    (msg_id : String) (msg_now now1 now2 : Nat)
    (hghost_mem : ghost ∈ task.dependencies)
    (hghost : alookup ghost orch.tasks = none)
    (hlook : alookup task_id orch.tasks = some task)
    (hdeps : ∀ dep ∈ task.dependencies, ∀ dt,
      alookup dep orch.tasks = some dt → dt.status = TaskStatus.COMPLETED)
    (hassigned : task.assigned_to = some a)
    (hane : a ≠ "")
    (hagent : alookup a orch.agents = some ty)
    (hcontract : contract a task.description = Except.ok r) :
    AgentOrchestrator.execute_task contract orch task_id msg_id msg_now now1 now2 =
      ((true, some r),
        { orch with
          tasks := astore task_id
            { task with
              status := TaskStatus.COMPLETED
              started_at := some now1
              completed_at := some now2
              result := some r } orch.tasks }) := by
  rw [execute_task_runs_contract orch task_id task a ty contract
    msg_id msg_now now1 now2 hlook hdeps hassigned hane hagent, hcontract]

/-- A pending dependency task. -/
def taskDep : Task :=
  { id := "d1", description := "dep", assigned_to := none,
    status := TaskStatus.PENDING, priority := 1, dependencies := [],
    result := none, error := none, created_at := 0, started_at := none,
    completed_at := none, parent_task_id := none, subtasks := [] }

/-- A completed dependency task. -/
def taskDepDone : Task :=
  { taskDep with id := "d2", status := TaskStatus.COMPLETED }

/-- A task assigned to `"alice"` depending on `d2` (COMPLETED) and `d1`
(PENDING). -/
def c2Task : Task :=
  { id := "t1", description := "do x", assigned_to := some "alice",
    status := TaskStatus.ASSIGNED, priority := 1,
    dependencies := ["d2", "d1"], result := none, error := none,
    created_at := 0, started_at := none, completed_at := none,
    parent_task_id := none, subtasks := [] }

def c2Orch : AgentOrchestrator :=
  { agents := [("alice", "CoderAgent")],
    tasks := [("d1", taskDep), ("d2", taskDepDone), ("t1", c2Task)],
    agent_capabilities := [("alice", ["code"])],
    active_workflows := [], message_broker := MessageBroker.init }

theorem C2_unmet_dependency_resets_to_pending_witness :
    AgentOrchestrator.execute_task (fun _ _ => Except.ok "r") c2Orch "t1"
        "m" 0 1 2 =
      ((false, none),
        { c2Orch with
          tasks := astore "t1"
            { c2Task with status := TaskStatus.PENDING } c2Orch.tasks }) :=
  (C2_unmet_dependency_resets_to_pending c2Orch "t1" c2Task "d1" taskDep
    (fun _ _ => Except.ok "r") "m" 0 1 2
    (by decide) (by decide) (by decide) (by decide)).1

/-- A task assigned to `"alice"` whose only dependency is COMPLETED. -/
def c4Task : Task :=
  { id := "t2", description := "do y", assigned_to := some "alice",
    status := TaskStatus.ASSIGNED, priority := 1, dependencies := ["d2"],
    result := none, error := none, created_at := 0, started_at := none,
    completed_at := none, parent_task_id := none, subtasks := [] }

def c4Orch : AgentOrchestrator :=
  { agents := [("alice", "CoderAgent")],
    tasks := [("d2", taskDepDone), ("t2", c4Task)],
    agent_capabilities := [("alice", ["code"])],
    active_workflows := [], message_broker := MessageBroker.init }

theorem C4_contract_failure_captured_witness :
    AgentOrchestrator.execute_task (fun _ _ => Except.error "boom") c4Orch
        "t2" "m" 0 1 2 =
      ((false, none),
        { c4Orch with
          tasks := astore "t2"
            { c4Task with
              status := TaskStatus.FAILED
              started_at := some 1
              completed_at := some 2
              error := some "boom" } c4Orch.tasks }) :=
  C4_contract_failure_captured c4Orch "t2" c4Task "alice" "CoderAgent"
    "boom" (fun _ _ => Except.error "boom") "m" 0 1 2
    (by decide)
    (by
      intro dep hdep dt hdt
      have hd : dep = "d2" := by simpa [c4Task] using hdep
      subst hd
      have hl : alookup "d2" c4Orch.tasks = some taskDepDone := by decide
      rw [hl] at hdt
      injection hdt with h
      subst h
      decide)
    (by decide) (by decide) (by decide) rfl

/-- A task assigned to `"alice"` depending on an id absent from the task
store (`"ghost"`) and on `d2` (COMPLETED). -/
def c10Task : Task :=
  { id := "t3", description := "do z", assigned_to := some "alice",
    status := TaskStatus.ASSIGNED, priority := 1,
    dependencies := ["ghost", "d2"], result := none, error := none,
    created_at := 0, started_at := none, completed_at := none,
    parent_task_id := none, subtasks := [] }

def c10Orch : AgentOrchestrator :=
  { agents := [("alice", "CoderAgent")],
    tasks := [("d2", taskDepDone), ("t3", c10Task)],
    agent_capabilities := [("alice", ["code"])],
    active_workflows := [], message_broker := MessageBroker.init }

theorem C10_missing_dependency_skipped_witness :
    AgentOrchestrator.execute_task (fun _ _ => Except.ok "done") c10Orch
        "t3" "m" 0 1 2 =
      ((true, some "done"),
        { c10Orch with
          tasks := astore "t3"
            { c10Task with
              status := TaskStatus.COMPLETED
              started_at := some 1
              completed_at := some 2
              result := some "done" } c10Orch.tasks }) :=
  C10_missing_dependency_skipped c10Orch "t3" c10Task "alice" "CoderAgent"
    "done" "ghost" (fun _ _ => Except.ok "done") "m" 0 1 2
    (by decide) (by decide) (by decide)
    (by
      intro dep hdep dt hdt
      have hd : dep = "ghost" ∨ dep = "d2" := by simpa [c10Task] using hdep
      cases hd with
      | inl h =>
          subst h
          rw [show alookup "ghost" c10Orch.tasks = (none : Option Task)
            from by decide] at hdt
          cases hdt
      | inr h =>
          subst h
          have hl : alookup "d2" c10Orch.tasks = some taskDepDone := by decide
          rw [hl] at hdt
          injection hdt with h'
          subst h'
          decide)
    (by decide) (by decide) (by decide) rfl

/-- The fixed keyword → type-name affinity table of the spec's scoring
heuristic (research/code/test/write/review). -/
def affinityTable : List (String × String) :=
  [("research", "research"), ("code", "coder"), ("test", "tester"),
   ("write", "writer"), ("review", "review")]

/-- Modelled from the spec's words: the per-agent selection score — "+10
per capability tag whose text is a case-insensitive substring of
`description`; +5 for each of a fixed keyword→type affinity table". -/
def specAgentScore (description agent_type : String)
    (capabilities : List String) : Int :=
  10 * ((capabilities.filter
      (fun cap => isInfixChars (lowerChars cap) (lowerChars description))).length : Int) +
  5 * ((affinityTable.filter
      (fun kw => isInfixChars kw.1.toList (lowerChars description) &&
                 isInfixChars kw.2.toList (lowerChars agent_type))).length : Int)

theorem foldl_tenCount (p : String → Bool) (caps : List String) (acc : Int) :
    caps.foldl (fun acc cap => if p cap then acc + 10 else acc) acc =
      acc + 10 * ((caps.filter p).length : Int) := by
  induction caps generalizing acc with
  | nil => simp
  | cons c rest ih =>
      by_cases h : p c
      · simp only [List.foldl_cons, List.filter_cons, h, if_true,
          List.length_cons]
        rw [ih]
        push_cast
        ring
      · simp only [List.foldl_cons, List.filter_cons, h, if_false,
          Bool.false_eq_true]
        rw [ih]

theorem scoreLoop_eq_spec (d ty : String) (caps : List String) :
    AgentOrchestrator.scoreLoop (lowerChars d) caps (lowerChars ty) =
      specAgentScore d ty caps := by
  unfold AgentOrchestrator.scoreLoop specAgentScore affinityTable
  rw [foldl_tenCount]
  simp only [List.filter_cons, List.filter_nil]
  split_ifs <;> simp <;> push_cast <;> ring

theorem alookup_self_of_nodup (l : List (String × α))
    (hnd : (l.map Prod.fst).Nodup) :
    ∀ p ∈ l, alookup p.1 l = some p.2 := by
  induction l with
  | nil => intro p hp; cases hp
  | cons hd tl ih =>
      intro p hp
      rw [List.map_cons, List.nodup_cons] at hnd
      cases hp with
      | head => simp [alookup]
      | tail _ hp' =>
          have hne : hd.1 ≠ p.1 := by
            intro he
            exact hnd.1 (he ▸ List.mem_map_of_mem Prod.fst hp')
          simp only [alookup, if_neg hne]
          exact ih hnd.2 p hp'

theorem scores_align (d : String)
    (caps0 : List (String × List String)) (ags0 : List (String × String)) :
    ∀ (caps : List (String × List String)) (ags : List (String × String)),
      caps.map Prod.fst = ags.map Prod.fst →
      (∀ p ∈ caps, alookup p.1 caps0 = some p.2) →
      (∀ q ∈ ags, alookup q.1 ags0 = some q.2) →
      caps.map (fun p => (p.1, AgentOrchestrator.scoreLoop (lowerChars d) p.2
          (lowerChars ((alookup p.1 ags0).getD "")))) =
        ags.map (fun q => (q.1, specAgentScore d q.2
          ((alookup q.1 caps0).getD []))) := by
  intro caps
  induction caps with
  | nil =>
      intro ags hkeys _ _
      cases ags with
      | nil => rfl
      | cons q qs => simp at hkeys
  | cons p ps ih =>
      intro ags hkeys hcaps hags
      cases ags with
      | nil => simp at hkeys
      | cons q qs =>
          simp only [List.map_cons, List.cons.injEq] at hkeys
          have hk : p.1 = q.1 := hkeys.1
          have hq : alookup q.1 ags0 = some q.2 := hags q (List.mem_cons_self q qs)
          have hp : alookup p.1 caps0 = some p.2 := hcaps p (List.mem_cons_self p ps)
          simp only [List.map_cons, List.cons.injEq]
          constructor
          · rw [hk, hq]
            rw [← hk, hp]
            simp only [Option.getD_some]
            rw [hk]
            exact congrArg (fun z => (q.1, z)) (scoreLoop_eq_spec d q.2 p.2)
          · exact ih qs hkeys.2
              (fun r hr => hcaps r (List.mem_cons_of_mem p hr))
              (fun r hr => hags r (List.mem_cons_of_mem q hr))

/-- The fold CPython's `max(..., key=...)` performs (first maximal element
wins); `pyMaxByVal (x :: rest) = some (pyFold x rest)` by definition. -/
def pyFold (x : String × Int) (rest : List (String × Int)) : String × Int :=
  rest.foldl (fun best y => if best.2 < y.2 then y else best) x

/-- `pyFold` returns an element of the list, of maximal value, and it is
the first element attaining that value (`find?` with "value ≥ max" finds
exactly it). -/
theorem pyFold_spec :
    ∀ (rest : List (String × Int)) (x : String × Int),
      pyFold x rest ∈ x :: rest ∧
      (∀ y ∈ x :: rest, y.2 ≤ (pyFold x rest).2) ∧
      (x :: rest).find? (fun p => decide ((pyFold x rest).2 ≤ p.2)) =
        some (pyFold x rest) := by
  intro rest
  induction rest with
  | nil =>
      intro x
      refine ⟨List.mem_cons_self x [], ?_, ?_⟩
      · intro y hy
        have : y = x := by simpa using hy
        rw [this]
        simp [pyFold]
      · simp [pyFold, List.find?]
  | cons y rest' ih =>
      intro x
      by_cases hxy : x.2 < y.2
      · have hf : pyFold x (y :: rest') = pyFold y rest' := by
          simp [pyFold, List.foldl_cons, hxy]
        obtain ⟨hmem, hmax, hfind⟩ := ih y
        rw [hf]
        have hyb : y.2 ≤ (pyFold y rest').2 :=
          hmax y (List.mem_cons_self y rest')
        refine ⟨List.mem_cons_of_mem x hmem, ?_, ?_⟩
        · intro z hz
          rcases List.mem_cons.1 hz with hz | hz
          · rw [hz]; exact le_of_lt (lt_of_lt_of_le hxy hyb)
          · exact hmax z hz
        · rw [List.find?_cons_of_neg _ (by
            simp only [decide_eq_true_eq, not_le]
            exact lt_of_lt_of_le hxy hyb), hfind]
      · have hf : pyFold x (y :: rest') = pyFold x rest' := by
          simp [pyFold, List.foldl_cons, hxy]
        obtain ⟨hmem, hmax, hfind⟩ := ih x
        rw [hf]
        have hyx : y.2 ≤ x.2 := le_of_not_lt hxy
        have hxb : x.2 ≤ (pyFold x rest').2 :=
          hmax x (List.mem_cons_self x rest')
        refine ⟨?_, ?_, ?_⟩
        · rcases List.mem_cons.1 hmem with h | h
          · rw [h]; exact List.mem_cons_self x (y :: rest')
          · exact List.mem_cons_of_mem x (List.mem_cons_of_mem y h)
        · intro z hz
          rcases List.mem_cons.1 hz with hz | hz
          · rw [hz]; exact hxb
          · rcases List.mem_cons.1 hz with hz' | hz'
            · rw [hz']; exact le_trans hyx hxb
            · exact hmax z (List.mem_cons_of_mem x hz')
        · by_cases hpb : (pyFold x rest').2 ≤ x.2
          · have hx : (x :: rest').find?
                (fun p => decide ((pyFold x rest').2 ≤ p.2)) = some x :=
              List.find?_cons_of_pos _ (by simpa using hpb)
            rw [hx] at hfind
            injection hfind with hbx
            rw [List.find?_cons_of_pos _ (by simpa using hpb)]
            exact congrArg some hbx
          · have hxlt : x.2 < (pyFold x rest').2 := not_le.1 hpb
            have hyn : ¬ ((pyFold x rest').2 ≤ y.2) :=
              not_le.2 (lt_of_le_of_lt hyx hxlt)
            rw [List.find?_cons_of_neg _ (by simpa using hpb)]
            rw [List.find?_cons_of_neg _ (by simpa using hyn)]
            rw [List.find?_cons_of_neg _ (by simpa using hpb)] at hfind
            exact hfind

theorem foldl_max_le (l : List (String × Int)) (c : Int) :
    ∀ acc, (∀ y ∈ l, y.2 ≤ c) → acc ≤ c →
      l.foldl (fun m q => max m q.2) acc ≤ c := by
  induction l with
  | nil => intro acc _ hacc; simpa using hacc
  | cons z rest ih =>
      intro acc h hacc
      simp only [List.foldl_cons]
      exact ih _ (fun y hy => h y (List.mem_cons_of_mem z hy))
        (max_le hacc (h z (List.mem_cons_self z rest)))

theorem le_foldl_max_acc (l : List (String × Int)) :
    ∀ acc, acc ≤ l.foldl (fun m q => max m q.2) acc := by
  induction l with
  | nil => intro acc; simp
  | cons z rest ih =>
      intro acc
      simp only [List.foldl_cons]
      exact le_trans (le_max_left acc z.2) (ih (max acc z.2))

theorem mem_le_foldl_max (l : List (String × Int)) :
    ∀ acc, ∀ y ∈ l, y.2 ≤ l.foldl (fun m q => max m q.2) acc := by
  induction l with
  | nil => intro acc y hy; cases hy
  | cons z rest ih =>
      intro acc y hy
      simp only [List.foldl_cons]
      rcases List.mem_cons.1 hy with h | h
      · rw [h]
        exact le_trans (le_max_right acc z.2) (le_foldl_max_acc rest _)
      · exact ih _ y h

theorem foldl_max_eq (l : List (String × Int)) (b : String × Int)
    (hb : b ∈ l) (hmax : ∀ y ∈ l, y.2 ≤ b.2) (hnn : 0 ≤ b.2) :
    l.foldl (fun m q => max m q.2) 0 = b.2 :=
  le_antisymm (foldl_max_le l b.2 0 hmax hnn) (mem_le_foldl_max l 0 b hb)

theorem specAgentScore_nonneg (d ty : String) (caps : List String) :
    0 ≤ specAgentScore d ty caps := by
  unfold specAgentScore
  have h1 : (0 : Int) ≤ 10 * ((caps.filter
      (fun cap => isInfixChars (lowerChars cap) (lowerChars d))).length : Int) :=
    mul_nonneg (by norm_num) (Int.natCast_nonneg _)
  have h2 : (0 : Int) ≤ 5 * ((affinityTable.filter
      (fun kw => isInfixChars kw.1.toList (lowerChars d) &&
        isInfixChars kw.2.toList (lowerChars ty))).length : Int) :=
    mul_nonneg (by norm_num) (Int.natCast_nonneg _)
  exact add_nonneg h1 h2

/-- Modelled from the spec's words: "+10 per capability tag whose text is
a case-insensitive substring of `description`; +5 for each of a fixed
keyword→type affinity table (research/code/test/write/review); highest
score wins, ties broken by registration order; if every actor scores 0,
fall back to the first registered actor; none only if zero actors are
registered." -/
def selectAgentSpec (orch : AgentOrchestrator) (d : String) : Option String :=
  match orch.agents with
  | [] => none
  | a0 :: _ =>
      let scores := orch.agents.map (fun q =>
        (q.1, specAgentScore d q.2 ((alookup q.1 orch.agent_capabilities).getD [])))
      let best : Int := scores.foldl (fun m q => max m q.2) 0
      if 0 < best then
        (scores.find? (fun p => decide (best ≤ p.2))).map Prod.fst
      else some a0.1

/-- Well-formedness of an orchestrator state as maintained by
`register_agent`/`unregister_agent`: `agents` and `agent_capabilities`
hold exactly the same keys, without duplicates. -/
def wfOrch (orch : AgentOrchestrator) : Prop :=
  orch.agent_capabilities.map Prod.fst = orch.agents.map Prod.fst ∧
  (orch.agents.map Prod.fst).Nodup

/-- C7: on well-formed states, `select_agent_for_task` computes exactly
the spec's heuristic (`selectAgentSpec`): +10 per case-insensitive
capability substring match, +5 per keyword→type affinity, highest score
wins with ties broken by registration order, fallback to the first
registered actor when every score is 0, and `none` exactly when no
actors are registered. -/
theorem C7_selection_matches_spec (orch : AgentOrchestrator) (d : String)
    (hwf : wfOrch orch) :
    orch.select_agent_for_task d = selectAgentSpec orch d ∧
    (orch.select_agent_for_task d = none ↔ orch.agents = []) := by
  obtain ⟨hkeys, hnd⟩ := hwf
  have hndc : (orch.agent_capabilities.map Prod.fst).Nodup := by
    rw [hkeys]; exact hnd
  have halign := scores_align d orch.agent_capabilities orch.agents
    orch.agent_capabilities orch.agents hkeys
    (alookup_self_of_nodup _ hndc) (alookup_self_of_nodup _ hnd)
  cases hags : orch.agents with
  | nil =>
      have hcaps : orch.agent_capabilities = [] := by
        have h := hkeys
        rw [hags] at h
        simpa using h
      have hselect : orch.select_agent_for_task d = none := by
        simp [AgentOrchestrator.select_agent_for_task, hcaps, hags,
          pyMaxByVal]
      have hspec : selectAgentSpec orch d = none := by
        unfold selectAgentSpec
        rw [hags]
      exact ⟨by rw [hselect, hspec], by rw [hselect]; simp [hags]⟩
  | cons a0 as =>
      set G : (String × String) → (String × Int) := fun q =>
        (q.1, specAgentScore d q.2
          ((alookup q.1 orch.agent_capabilities).getD [])) with hG
      obtain ⟨hmem, hmax, hfind⟩ := pyFold_spec (as.map G) (G a0)
      have hSS : orch.agents.map G = G a0 :: as.map G := by
        rw [hags]; rfl
      have hnn : 0 ≤ (pyFold (G a0) (as.map G)).2 := by
        rcases List.mem_cons.1 hmem with h | h
        · rw [h, hG]; exact specAgentScore_nonneg d a0.2 _
        · obtain ⟨q, _, hq⟩ := List.mem_map.1 h
          rw [← hq, hG]; exact specAgentScore_nonneg d q.2 _
      have hfold := foldl_max_eq _ _ hmem hmax hnn
      have hcode : orch.select_agent_for_task d =
          (if 0 < (pyFold (G a0) (as.map G)).2 then
            some (pyFold (G a0) (as.map G)).1
          else (orch.agents.head?).map Prod.fst) := by
        simp only [AgentOrchestrator.select_agent_for_task]
        rw [halign, hSS]
        rfl
      have hspec0 : selectAgentSpec orch d =
          (if 0 < ((G a0 :: as.map G).foldl (fun m q => max m q.2) 0) then
            ((G a0 :: as.map G).find? (fun p =>
              decide (((G a0 :: as.map G).foldl
                (fun m q => max m q.2) 0) ≤ p.2))).map Prod.fst
          else some a0.1) := by
        unfold selectAgentSpec
        rw [hags, hG]
        rfl
      constructor
      · rw [hcode, hspec0, hfold]
        by_cases hpos : 0 < (pyFold (G a0) (as.map G)).2
        · rw [if_pos hpos, if_pos hpos, hfind]
          rfl
        · rw [if_neg hpos, if_neg hpos, hags]
          rfl
      · rw [hcode]
        constructor
        · intro h
          by_cases hpos : 0 < (pyFold (G a0) (as.map G)).2
          · rw [if_pos hpos] at h
            cases h
          · rw [if_neg hpos, hags] at h
            cases h
        · intro h
          cases h


/-- An orchestrator with a coder-typed agent with unrelated capabilities
and a reviewer-typed agent with the "review" capability. -/
def c7Orch : AgentOrchestrator :=
  { agents := [("carol", "CoderAgent"), ("rita", "ReviewerAgent")],
    tasks := [],
    agent_capabilities := [("carol", ["database"]), ("rita", ["review"])],
    active_workflows := [], message_broker := MessageBroker.init }

theorem C7_selection_matches_spec_witness :
    wfOrch c7Orch ∧
    c7Orch.select_agent_for_task "please review this code" =
      selectAgentSpec c7Orch "please review this code" ∧
    c7Orch.select_agent_for_task "please review this code" = some "rita" :=
  ⟨by constructor
      · decide
      · decide,
   (C7_selection_matches_spec c7Orch "please review this code"
     ⟨by decide, by decide⟩).1,
   by decide⟩

end MCO
